import Mathlib

/-!
Shallow embedding of the release-assessment-portal web client
(React/Supabase "release impact assessment" portal) and proofs about it.

The embedding mirrors, definition by definition:
* the data model of `src/types/index.ts` and the SQL migrations,
* `RequestDetail` (cancel affordance and `handleCancel`),
* `NewAssessment.tsx` (`validate`, `handleFileChange`, `handleConfirm`'s
  storage paths),
* `Dashboard.tsx` (`filteredRequests`),
* `Results.tsx` (`handleDownload`, `generateMarkdown`).

JavaScript strings are modelled as Lean `String` (faithful for the
Basic Multilingual Plane; all literals in the program are ASCII), and the
JSON numbers occurring in this data model (counts and byte sizes, all
integral) as `Int`.
-/

namespace ReleasePortal

/-- `ReportType` from `src/types/index.ts`:
`'API' | 'Database' | 'API + Database'`. -/
inductive ReportType where
  | api
  | database
  | apiAndDatabase
  deriving DecidableEq

/-- The string value of a `ReportType` as stored in the `report_type` column. -/
def reportTypeStr : ReportType → String
  | .api => "API"
  | .database => "Database"
  | .apiAndDatabase => "API + Database"

/-- `Environment` from `src/types/index.ts`. -/
inductive Environment where
  | development
  | test
  | staging
  | production
  | notApplicable
  deriving DecidableEq

/-- The string value of an `Environment` as stored in the `environment` column. -/
def environmentStr : Environment → String
  | .development => "Development"
  | .test => "Test"
  | .staging => "Staging"
  | .production => "Production"
  | .notApplicable => "Not Applicable"

/-- `RequestStatus` from `src/types/index.ts`:
`'Queued' | 'Running' | 'Completed' | 'Failed'`. -/
inductive RequestStatus where
  | queued
  | running
  | completed
  | failed
  deriving DecidableEq

/-- The string value of a `RequestStatus` as stored in the `status` column. -/
def statusStr : RequestStatus → String
  | .queued => "Queued"
  | .running => "Running"
  | .completed => "Completed"
  | .failed => "Failed"

/-- `Release` from `src/types/index.ts`. -/
structure Release where
  id : String
  version : String
  release_date : String
  is_active : Bool
  created_at : String
  deriving DecidableEq

/-- `AssessmentRequest` from `src/types/index.ts` (one row of the
`assessment_requests` table; the optional joined `current_release` /
`target_release` objects are not part of the row and are omitted). -/
structure AssessmentRequest where
  id : String
  user_id : String
  report_type : ReportType
  current_release_id : String
  target_release_id : String
  environment : Environment
  title : Option String
  description : Option String
  status : RequestStatus
  error_message : Option String
  email_notification : Bool
  inapp_notification : Bool
  created_at : String
  updated_at : String
  completed_at : Option String
  deriving DecidableEq

/-- A file selected in the submission form: the `name`, `type` (MIME type)
and `size` (bytes) properties of a DOM `File` object. -/
structure FileMeta where
  name : String
  type : String
  size : Nat
  deriving DecidableEq

/- ### RequestDetail: cancel affordance and `handleCancel`
(`src/unnamed/part_000`, `RequestDetail`). -/

/-- The render condition of the Cancel button in `RequestDetail`
(`src/unnamed/part_000` line 439):
`request.status === 'Queued' || request.status === 'Running'`. -/
def cancelControlVisible (status : RequestStatus) : Bool :=
  decide (status = .queued) || decide (status = .running)

/-- The effect of `handleCancel`'s update
`update({ status: 'Failed', error_message: 'Canceled by user' })` on
one `assessment_requests` row: exactly the two named columns are written. -/
def applyCancelUpdate (r : AssessmentRequest) : AssessmentRequest :=
  { r with status := .failed, error_message := some "Canceled by user" }

/-- The whole-table effect of `handleCancel`'s update, which is filtered by
`.eq('id', request.id)`: rows with a different `id` are untouched. -/
def cancelUpdateTable (rows : List AssessmentRequest) (id : String) :
    List AssessmentRequest :=
  rows.map fun r => if r.id = id then applyCancelUpdate r else r

/-- The update command issued by `handleCancel` against the backend:
target table, the two written column values, and the row filter. -/
structure UpdateCommand where
  table : String
  newStatus : RequestStatus
  newErrorMessage : String
  filterId : String
  deriving DecidableEq

/-- `handleCancel` from `RequestDetail` (`src/unnamed/part_000` lines 199-219),
as a function from the loaded request (`null` guard included) to the update
command it issues.  The body performs no check of `request.status`. -/
def handleCancel : Option AssessmentRequest → Option UpdateCommand
  | none => none
  | some r => some ⟨"assessment_requests", .failed, "Canceled by user", r.id⟩

/- ### NewAssessment: storage paths (`handleConfirm`). -/

/-- The storage path built in `handleConfirm`
(`src/src/pages/NewAssessment.tsx` line 178):
`` `${user.id}/${data.id}/${file.name}` ``. -/
def attachmentFilePath (userId requestId filename : String) : String :=
  userId ++ "/" ++ requestId ++ "/" ++ filename

/-- The storage paths of the uploads issued by `handleConfirm`'s loop,
in order, one per accepted attachment. -/
def attachmentUploadPaths (userId requestId : String)
    (files : List FileMeta) : List String :=
  files.map fun f => attachmentFilePath userId requestId f.name

/- ### NewAssessment: `validate` and `handleFileChange`. -/

/-- The submission form state (`FormData` in `NewAssessment.tsx`); the
empty-string sentinel of the unselected `reportType` radio is `none`. -/
structure SubmissionForm where
  reportType : Option ReportType
  currentReleaseId : String
  targetReleaseId : String
  title : String
  environment : Environment
  description : String
  emailNotification : Bool
  inappNotification : Bool

/-- `FormErrors` from `NewAssessment.tsx`: each key is present (`some msg`)
or absent (`none`). -/
structure FormErrors where
  reportType : Option String := none
  currentReleaseId : Option String := none
  targetReleaseId : Option String := none
  title : Option String := none
  description : Option String := none
  attachments : Option String := none
  deriving DecidableEq

/-- `Object.keys(newErrors).length === 0`: no error key is set. -/
def FormErrors.isEmpty (e : FormErrors) : Bool :=
  e.reportType.isNone && e.currentReleaseId.isNone && e.targetReleaseId.isNone
    && e.title.isNone && e.description.isNone && e.attachments.isNone

/-- JavaScript `a >= b` on strings: code-unit lexicographic comparison,
i.e. the negation of `a < b`. -/
def jsStrGe (a b : String) : Bool := !(decide (a < b))

/-- The target-ordering validation message (`NewAssessment.tsx` line 95). -/
def targetOrderMsg : String := "Target release must be newer than current release"

/-- The aggregate file-rejection message (`NewAssessment.tsx` line 128). -/
def rejectedFilesMsg : String :=
  "Some files were rejected. Only PDF, TXT, MD, JSON, XML files up to 10MB are allowed."

/-- `validate` from `NewAssessment.tsx` lines 77-116, building `newErrors`
in program order (the release-pair rule reads the fetched `releases` list;
the attachment rules read the accepted `attachments` list). -/
def validate (releases : List Release) (form : SubmissionForm)
    (attachments : List FileMeta) : FormErrors :=
  let e1 : FormErrors :=
    { reportType := if form.reportType.isNone
        then some "Please select a report type" else none
      currentReleaseId := if form.currentReleaseId = ""
        then some "Please select your current release" else none
      targetReleaseId := if form.targetReleaseId = ""
        then some "Please select a target release" else none }
  let e2 : FormErrors :=
    if form.currentReleaseId ≠ "" ∧ form.targetReleaseId ≠ "" then
      match releases.find? (fun r => r.id = form.currentReleaseId),
          releases.find? (fun r => r.id = form.targetReleaseId) with
      | some currentRelease, some targetRelease =>
          if jsStrGe currentRelease.version targetRelease.version then
            { e1 with targetReleaseId := some targetOrderMsg }
          else e1
      | _, _ => e1
    else e1
  let e3 : FormErrors :=
    { e2 with
      title := if form.title ≠ "" ∧ form.title.length > 100
        then some "Title cannot exceed 100 characters" else none
      description := if form.description ≠ "" ∧ form.description.length > 1000
        then some "Description cannot exceed 1000 characters" else none }
  let totalSize : Nat := attachments.foldl (fun sum file => sum + file.size) 0
  let e4 : FormErrors :=
    if attachments.length > 5 then
      { e3 with attachments := some "Maximum 5 files allowed" } else e3
  if totalSize > 50 * 1024 * 1024 then
    { e4 with attachments := some "Total file size cannot exceed 50MB" } else e4

/-- The MIME allow-list `validTypes` of `handleFileChange`
(`NewAssessment.tsx` line 121). -/
def validTypes : List String :=
  ["application/pdf", "text/plain", "text/markdown", "application/json",
   "application/xml", "text/xml"]

/-- The per-file acceptance check of `handleFileChange` (line 122):
`validTypes.includes(file.type) && file.size <= 10 * 1024 * 1024`. -/
def acceptFile (file : FileMeta) : Bool :=
  validTypes.contains file.type && decide (file.size ≤ 10 * 1024 * 1024)

/-- `handleFileChange` (`NewAssessment.tsx` lines 118-138): filters the
selected `files`, sets or clears the aggregate `attachments` error, and
appends the surviving files to the already-accepted list. -/
def handleFileChange (prev : List FileMeta) (prevErrors : FormErrors)
    (files : List FileMeta) : List FileMeta × FormErrors :=
  let validFiles := files.filter acceptFile
  let errors :=
    if validFiles.length < files.length then
      { prevErrors with attachments := some rejectedFilesMsg }
    else { prevErrors with attachments := none }
  (prev ++ validFiles, errors)

/- ### Dashboard: client-side filtering (`filteredRequests`). -/

/-- `needle` starts `hay` (character-wise). -/
def startsWith : List Char → List Char → Bool
  | [], _ => true
  | _ :: _, [] => false
  | a :: na, b :: hb => a == b && startsWith na hb

/-- `needle` occurs contiguously somewhere in `hay`: the model of
JavaScript `String.prototype.includes`. -/
def occursIn (needle hay : List Char) : Bool :=
  if startsWith needle hay then true
  else match hay with
    | [] => false
    | _ :: t => occursIn needle t

/-- JavaScript `hay.includes(needle)`. -/
def jsIncludes (hay needle : String) : Bool := occursIn needle.data hay.data

/-- The `matchesSearch` condition of `Dashboard.tsx` line 63:
`req.id.includes(searchTerm) ||
 (req.title?.toLowerCase().includes(searchTerm.toLowerCase()) ?? false)`. -/
def matchesSearch (req : AssessmentRequest) (searchTerm : String) : Bool :=
  jsIncludes req.id searchTerm ||
    (match req.title with
      | some t => jsIncludes t.toLower searchTerm.toLower
      | none => false)

/-- The `matchesStatus` condition of `Dashboard.tsx` line 64:
`statusFilter === 'all' || req.status === statusFilter`. -/
def matchesStatus (req : AssessmentRequest) (statusFilter : String) : Bool :=
  statusFilter == "all" || statusStr req.status == statusFilter

/-- `filteredRequests` from `Dashboard.tsx` lines 62-66. -/
def filteredRequests (requests : List AssessmentRequest)
    (searchTerm statusFilter : String) : List AssessmentRequest :=
  requests.filter fun req =>
    matchesSearch req searchTerm && matchesStatus req statusFilter

/-- Newest-first comparison used by the dashboard's fetched ordering
(`.order('created_at', { ascending: false })`, `Dashboard.tsx` line 37):
the earlier list element has the later (or equal) `created_at`. -/
def newestFirst (a b : AssessmentRequest) : Prop :=
  b.created_at ≤ a.created_at

/- ### JSON documents.
JavaScript values reachable from an `AssessmentResults` row: `null`,
booleans, (integral) numbers, strings, arrays and objects.  Arrays and
object field lists are their own inductives so that all recursion below is
plainly structural. -/

mutual

inductive Json where
  | null : Json
  | bool (b : Bool) : Json
  | num (n : Int) : Json
  | str (s : String) : Json
  | arr (items : JsonItems) : Json
  | obj (fields : JsonFields) : Json

inductive JsonItems where
  | nil : JsonItems
  | cons (head : Json) (tail : JsonItems) : JsonItems

inductive JsonFields where
  | nil : JsonFields
  | cons (key : String) (value : Json) (tail : JsonFields) : JsonFields

end

/-- The two brace characters, kept as named constants. -/
def obrace : Char := Char.ofNat 123

/-- Closing brace. -/
def cbrace : Char := Char.ofNat 125

/-- The decimal digit character of `n` (`n < 10`). -/
def digitChar (n : Nat) : Char := Char.ofNat (48 + n)

/-- Digit extraction with an explicit recursion budget (any budget above
the value works; the budget keeps the recursion structural). -/
def natDigitsGo : Nat → Nat → List Char
  | 0, _ => []
  | fuel + 1, n =>
    if n < 10 then [digitChar n]
    else natDigitsGo fuel (n / 10) ++ [digitChar (n % 10)]

/-- The decimal digit characters of a natural number, most significant
first, as produced by JavaScript number-to-string conversion for
non-negative integers. -/
def natDigits (n : Nat) : List Char := natDigitsGo (n + 1) n

/-- JavaScript number-to-string conversion restricted to integers. -/
def intChars (n : Int) : List Char :=
  if n < 0 then '-' :: natDigits n.natAbs else natDigits n.natAbs

/-- Lower-case hexadecimal digit of `n < 16`. -/
def hexDig (n : Nat) : Char :=
  if n < 10 then digitChar n else Char.ofNat (87 + n)

/-- `QuoteJSONString`'s escaping of one character (ECMA-262, as performed
by `JSON.stringify`): `"` and `\` get a backslash escape, the five named
control characters get their short escapes, any other control character
becomes `\u00xx`, and every other character is emitted as itself. -/
def escChar (c : Char) : List Char :=
  if c = '"' then ['\\', '"']
  else if c = '\\' then ['\\', '\\']
  else if c = Char.ofNat 8 then ['\\', 'b']
  else if c = Char.ofNat 12 then ['\\', 'f']
  else if c = '\n' then ['\\', 'n']
  else if c = '\r' then ['\\', 'r']
  else if c = '\t' then ['\\', 't']
  else if c.toNat < 32 then
    ['\\', 'u', '0', '0', hexDig (c.toNat / 16), hexDig (c.toNat % 16)]
  else [c]

/-- Escape a whole character sequence. -/
def escStr : List Char → List Char
  | [] => []
  | c :: rest => escChar c ++ escStr rest

/-- A JSON string literal: quote, escaped body, quote. -/
def qstr (s : String) : List Char := '"' :: (escStr s.data ++ ['"'])

mutual

/-- `JSON.stringify(v, null, 2)` (ECMA-262 `SerializeJSONProperty` with a
two-space `gap`), at current indentation `ind`: primitives print bare,
empty arrays/objects print as `[]` / the empty braces, and non-empty
arrays/objects print one element per line, indented two spaces past
`ind`. -/
def serV (ind : List Char) : Json → List Char
  | .null => 'n' :: ['u', 'l', 'l']
  | .bool true => 't' :: ['r', 'u', 'e']
  | .bool false => 'f' :: ['a', 'l', 's', 'e']
  | .num n => intChars n
  | .str s => qstr s
  | .arr .nil => ['[', ']']
  | .arr (.cons h t) =>
      '[' :: '\n' :: ((ind ++ [' ', ' ']) ++ serV (ind ++ [' ', ' ']) h
        ++ serItems (ind ++ [' ', ' ']) t ++ '\n' :: (ind ++ [']']))
  | .obj .nil => [obrace, cbrace]
  | .obj (.cons k v t) =>
      obrace :: '\n' :: ((ind ++ [' ', ' ']) ++ qstr k ++ ':' :: ' '
        :: serV (ind ++ [' ', ' ']) v
        ++ serFields (ind ++ [' ', ' ']) t ++ '\n' :: (ind ++ [cbrace]))

/-- The remaining array elements, each preceded by `,\n` and the element
indentation. -/
def serItems (ind : List Char) : JsonItems → List Char
  | .nil => []
  | .cons h t => ',' :: '\n' :: (ind ++ serV ind h ++ serItems ind t)

/-- The remaining object members, each preceded by `,\n` and the member
indentation. -/
def serFields (ind : List Char) : JsonFields → List Char
  | .nil => []
  | .cons k v t =>
      ',' :: '\n' :: (ind ++ qstr k ++ ':' :: ' ' :: serV ind v
        ++ serFields ind t)

end

/-- `JSON.stringify(v, null, 2)` as a `String`. -/
def stringifyPretty (j : Json) : String := ⟨serV [] j⟩

/- ### A JSON reader (the model of `JSON.parse`, restricted to the
integral numbers this data model contains). -/

/-- JSON insignificant whitespace. -/
def isWsChar (c : Char) : Bool :=
  c = ' ' || c = '\n' || c = '\r' || c = '\t'

/-- Skip insignificant whitespace. -/
def skipWs : List Char → List Char
  | [] => []
  | c :: r => if isWsChar c then skipWs r else c :: r

/-- Numeric value of a decimal digit character. -/
def digitVal (c : Char) : Nat := c.toNat - 48

/-- Value of a most-significant-first digit string. -/
def digitsVal (l : List Char) : Nat :=
  l.foldl (fun acc c => 10 * acc + digitVal c) 0

/-- Read a run of decimal digits (at least one). -/
def parseNat (s : List Char) : Option (Nat × List Char) :=
  match s.takeWhile Char.isDigit with
  | [] => none
  | ds => some (digitsVal ds, s.dropWhile Char.isDigit)

/-- Numeric value of a hexadecimal digit character. -/
def hexVal (c : Char) : Option Nat :=
  if '0' ≤ c ∧ c ≤ '9' then some (c.toNat - 48)
  else if 'a' ≤ c ∧ c ≤ 'f' then some (c.toNat - 87)
  else if 'A' ≤ c ∧ c ≤ 'F' then some (c.toNat - 55)
  else none

/-- The character denoted by a single-character escape. -/
def unescChar (e : Char) : Option Char :=
  if e = '"' then some '"'
  else if e = '\\' then some '\\'
  else if e = '/' then some '/'
  else if e = 'b' then some (Char.ofNat 8)
  else if e = 'f' then some (Char.ofNat 12)
  else if e = 'n' then some '\n'
  else if e = 'r' then some '\r'
  else if e = 't' then some '\t'
  else none

/-- Prepend a character to the first component of a reader result. -/
def consFst (c : Char) (o : Option (List Char × List Char)) :
    Option (List Char × List Char) :=
  o.map fun p => (c :: p.1, p.2)

/-- Read a JSON string body (the opening quote already consumed) up to and
including the closing quote. -/
def parseStrBody : List Char → Option (List Char × List Char)
  | [] => none
  | c :: r =>
    if c = '"' then some ([], r)
    else if c = '\\' then
      match r with
      | [] => none
      | e :: r2 =>
        if e = 'u' then
          match r2 with
          | h1 :: h2 :: h3 :: h4 :: r3 =>
            match hexVal h1, hexVal h2, hexVal h3, hexVal h4 with
            | some a, some b, some c3, some d =>
              consFst (Char.ofNat (((a * 16 + b) * 16 + c3) * 16 + d))
                (parseStrBody r3)
            | _, _, _, _ => none
          | _ => none
        else
          match unescChar e with
          | some u => consFst u (parseStrBody r2)
          | none => none
    else consFst c (parseStrBody r)

mutual

/-- Read one JSON value, with `fuel` bounding the nesting depth. -/
def parseV : Nat → List Char → Option (Json × List Char)
  | 0, _ => none
  | fuel + 1, s =>
    match skipWs s with
    | [] => none
    | c :: r =>
      if c = '"' then
        (parseStrBody r).map fun p => (Json.str ⟨p.1⟩, p.2)
      else if c = '[' then
        match skipWs r with
        | ']' :: r2 => some (Json.arr .nil, r2)
        | r2 => (parseItems fuel r2).map fun p => (Json.arr p.1, p.2)
      else if c = obrace then
        match skipWs r with
        | [] => none
        | c2 :: r2 =>
          if c2 = cbrace then some (Json.obj .nil, r2)
          else (parseFields fuel (c2 :: r2)).map fun p => (Json.obj p.1, p.2)
      else if c = 't' then
        match r with
        | 'r' :: 'u' :: 'e' :: r2 => some (Json.bool true, r2)
        | _ => none
      else if c = 'f' then
        match r with
        | 'a' :: 'l' :: 's' :: 'e' :: r2 => some (Json.bool false, r2)
        | _ => none
      else if c = 'n' then
        match r with
        | 'u' :: 'l' :: 'l' :: r2 => some (Json.null, r2)
        | _ => none
      else if c = '-' then
        (parseNat r).map fun p => (Json.num (-(p.1 : Int)), p.2)
      else if c.isDigit then
        (parseNat (c :: r)).map fun p => (Json.num (p.1 : Int), p.2)
      else none

/-- Read the elements of a non-empty array, up to and including `]`. -/
def parseItems : Nat → List Char → Option (JsonItems × List Char)
  | 0, _ => none
  | fuel + 1, s =>
    match parseV fuel s with
    | none => none
    | some (v, r) =>
      match skipWs r with
      | ',' :: r2 =>
        (parseItems fuel r2).map fun p => (JsonItems.cons v p.1, p.2)
      | ']' :: r2 => some (JsonItems.cons v .nil, r2)
      | _ => none

/-- Read the members of a non-empty object, up to and including the
closing brace. -/
def parseFields : Nat → List Char → Option (JsonFields × List Char)
  | 0, _ => none
  | fuel + 1, s =>
    match skipWs s with
    | '"' :: r =>
      match parseStrBody r with
      | none => none
      | some (k, r1) =>
        match skipWs r1 with
        | ':' :: r2 =>
          match parseV fuel r2 with
          | none => none
          | some (v, r3) =>
            match skipWs r3 with
            | [] => none
            | c :: r4 =>
              if c = ',' then
                (parseFields fuel r4).map fun p =>
                  (JsonFields.cons ⟨k⟩ v p.1, p.2)
              else if c = cbrace then some (JsonFields.cons ⟨k⟩ v .nil, r4)
              else none
        | _ => none
    | _ => none

end

/-- `JSON.parse` on a whole document (integral-number fragment): read one
value with depth budget the length of the input, then require only
whitespace to remain. -/
def parseJson (s : String) : Option Json :=
  match parseV (s.data.length + 1) s.data with
  | some (j, rest) => if skipWs rest = [] then some j else none
  | none => none

/-- Input that does not continue a decimal literal: empty, or starting with
a non-digit. -/
def noDigitHead : List Char → Prop
  | [] => True
  | c :: _ => c.isDigit = false

mutual

/-- Structural size of a JSON value, a lower bound for the reader's depth
budget. -/
def jsize : Json → Nat
  | .null => 1
  | .bool _ => 1
  | .num _ => 1
  | .str _ => 1
  | .arr items => isize items + 1
  | .obj fields => fsize fields + 1

/-- Size of array items. -/
def isize : JsonItems → Nat
  | .nil => 1
  | .cons h t => jsize h + isize t + 1

/-- Size of object members. -/
def fsize : JsonFields → Nat
  | .nil => 1
  | .cons _ v t => jsize v + fsize t + 1

end

/- ### The `AssessmentResults` data model (`src/types/index.ts`). -/

/-- `risk_level ∈ 'Low' | 'Medium' | 'High'`. -/
inductive RiskLevel where
  | low
  | medium
  | high
  deriving DecidableEq

/-- The string value of a `RiskLevel`. -/
def riskStr : RiskLevel → String
  | .low => "Low"
  | .medium => "Medium"
  | .high => "High"

/-- `change_type ∈ 'Added' | 'Modified' | 'Removed'`. -/
inductive ChangeType where
  | added
  | modified
  | removed
  deriving DecidableEq

/-- The string value of a `ChangeType`. -/
def changeTypeStr : ChangeType → String
  | .added => "Added"
  | .modified => "Modified"
  | .removed => "Removed"

/-- `AssessmentSummary` from `src/types/index.ts`. -/
structure AssessmentSummary where
  api_endpoints_modified : Int
  api_endpoints_added : Int
  api_endpoints_removed : Int
  database_tables_modified : Int
  database_tables_added : Int
  database_tables_removed : Int
  risk_level : RiskLevel
  breaking_changes : Bool
  key_findings : List String
  deriving DecidableEq

/-- The optional `details` object of an `ApiChange`. -/
structure ApiChangeDetails where
  parameters_changed : Option (List String)
  response_schema_changed : Option Bool
  breaking_changes : Option (List String)
  deriving DecidableEq

/-- `ApiChange` from `src/types/index.ts`. -/
structure ApiChange where
  endpoint : String
  method : String
  change_type : ChangeType
  summary : String
  details : Option ApiChangeDetails
  deriving DecidableEq

/-- The optional `details` object of a `DatabaseChange`. -/
structure DatabaseChangeDetails where
  columns_added : Option (List String)
  columns_removed : Option (List String)
  columns_modified : Option (List String)
  indexes_changed : Option (List String)
  deriving DecidableEq

/-- `DatabaseChange` from `src/types/index.ts`. -/
structure DatabaseChange where
  table_name : String
  change_type : ChangeType
  summary : String
  details : Option DatabaseChangeDetails
  deriving DecidableEq

/-- `AssessmentResults` from `src/types/index.ts` (one row of the
`assessment_results` table).  The nullable `api_changes` /
`database_changes` columns are `Option`s; `raw_data` is an opaque JSON
payload. -/
structure AssessmentResults where
  id : String
  request_id : String
  summary : AssessmentSummary
  api_changes : Option (List ApiChange)
  database_changes : Option (List DatabaseChange)
  raw_data : Json
  generated_at : String

/- ### The JSON document of an `AssessmentResults` row, as
`JSON.stringify` sees it: one key per column in table order; `null` for a
NULL column; inside the `jsonb` payloads an absent optional key is an
absent member. -/

/-- Turn a list of values into JSON array items. -/
def itemsOf (f : α → Json) : List α → JsonItems
  | [] => .nil
  | a :: rest => .cons (f a) (itemsOf f rest)

/-- A JSON array of strings. -/
def encodeStrList (l : List String) : Json := .arr (itemsOf Json.str l)

/-- Prepend member `k` when the optional value is present, else nothing. -/
def optField (k : String) (f : α → Json) : Option α → JsonFields → JsonFields
  | none, rest => rest
  | some a, rest => .cons k (f a) rest

/-- `null` for an absent nullable column, else the encoded value. -/
def nullable (f : α → Json) : Option α → Json
  | none => .null
  | some a => f a

/-- The JSON object of an `AssessmentSummary`. -/
def encodeSummary (s : AssessmentSummary) : Json :=
  .obj (.cons "api_endpoints_modified" (.num s.api_endpoints_modified)
    (.cons "api_endpoints_added" (.num s.api_endpoints_added)
    (.cons "api_endpoints_removed" (.num s.api_endpoints_removed)
    (.cons "database_tables_modified" (.num s.database_tables_modified)
    (.cons "database_tables_added" (.num s.database_tables_added)
    (.cons "database_tables_removed" (.num s.database_tables_removed)
    (.cons "risk_level" (.str (riskStr s.risk_level))
    (.cons "breaking_changes" (.bool s.breaking_changes)
    (.cons "key_findings" (encodeStrList s.key_findings) .nil)))))))))

/-- The JSON object of an `ApiChange.details`. -/
def encodeApiDetails (d : ApiChangeDetails) : Json :=
  .obj (optField "parameters_changed" encodeStrList d.parameters_changed
    (optField "response_schema_changed" Json.bool d.response_schema_changed
    (optField "breaking_changes" encodeStrList d.breaking_changes .nil)))

/-- The JSON object of an `ApiChange`. -/
def encodeApiChange (c : ApiChange) : Json :=
  .obj (.cons "endpoint" (.str c.endpoint)
    (.cons "method" (.str c.method)
    (.cons "change_type" (.str (changeTypeStr c.change_type))
    (.cons "summary" (.str c.summary)
    (optField "details" encodeApiDetails c.details .nil)))))

/-- The JSON object of a `DatabaseChange.details`. -/
def encodeDbDetails (d : DatabaseChangeDetails) : Json :=
  .obj (optField "columns_added" encodeStrList d.columns_added
    (optField "columns_removed" encodeStrList d.columns_removed
    (optField "columns_modified" encodeStrList d.columns_modified
    (optField "indexes_changed" encodeStrList d.indexes_changed .nil))))

/-- The JSON object of a `DatabaseChange`. -/
def encodeDbChange (c : DatabaseChange) : Json :=
  .obj (.cons "table_name" (.str c.table_name)
    (.cons "change_type" (.str (changeTypeStr c.change_type))
    (.cons "summary" (.str c.summary)
    (optField "details" encodeDbDetails c.details .nil))))

/-- The JSON document of a whole `AssessmentResults` row. -/
def encodeResults (r : AssessmentResults) : Json :=
  .obj (.cons "id" (.str r.id)
    (.cons "request_id" (.str r.request_id)
    (.cons "summary" (encodeSummary r.summary)
    (.cons "api_changes"
      (nullable (fun l => .arr (itemsOf encodeApiChange l)) r.api_changes)
    (.cons "database_changes"
      (nullable (fun l => .arr (itemsOf encodeDbChange l)) r.database_changes)
    (.cons "raw_data" r.raw_data
    (.cons "generated_at" (.str r.generated_at) .nil)))))))

/-- `JSON.stringify(results, null, 2)`, the exported JSON document
(`Results.tsx` line 74). -/
def stringifyResults (r : AssessmentResults) : String :=
  stringifyPretty (encodeResults r)

/- ### Reading the exported document back (field-for-field). -/

/-- Look a member up in a JSON object's field list. -/
def getField : JsonFields → String → Option Json
  | .nil, _ => none
  | .cons k v rest, key => if k = key then some v else getField rest key

/-- Expect a JSON string. -/
def asStr : Json → Option String
  | .str s => some s
  | _ => none

/-- Expect a JSON (integral) number. -/
def asInt : Json → Option Int
  | .num n => some n
  | _ => none

/-- Expect a JSON boolean. -/
def asBool : Json → Option Bool
  | .bool b => some b
  | _ => none

/-- Decode each array item. -/
def decodeItems (f : Json → Option α) : JsonItems → Option (List α)
  | .nil => some []
  | .cons h t =>
    match f h, decodeItems f t with
    | some a, some rest => some (a :: rest)
    | _, _ => none

/-- Expect a JSON array and decode its items. -/
def asListOf (f : Json → Option α) : Json → Option (List α)
  | .arr items => decodeItems f items
  | _ => none

/-- Decode an optional member: absent is `none`, present must decode. -/
def decodeOptField (fs : JsonFields) (k : String) (f : Json → Option α) :
    Option (Option α) :=
  match getField fs k with
  | none => some none
  | some v => (f v).map some

/-- Decode a nullable column: `null` is `none`, other values must decode,
absence is an error. -/
def decodeNullableField (fs : JsonFields) (k : String)
    (f : Json → Option α) : Option (Option α) :=
  match getField fs k with
  | some .null => some none
  | some v => (f v).map some
  | none => none

/-- Decode a required member. -/
def decodeField (fs : JsonFields) (k : String) (f : Json → Option α) :
    Option α :=
  (getField fs k).bind f

/-- Read a `RiskLevel` from its string value. -/
def decodeRisk (j : Json) : Option RiskLevel :=
  match j with
  | .str "Low" => some .low
  | .str "Medium" => some .medium
  | .str "High" => some .high
  | _ => none

/-- Read a `ChangeType` from its string value. -/
def decodeChangeType (j : Json) : Option ChangeType :=
  match j with
  | .str "Added" => some .added
  | .str "Modified" => some .modified
  | .str "Removed" => some .removed
  | _ => none

/-- Read an `AssessmentSummary` object. -/
def decodeSummary (j : Json) : Option AssessmentSummary :=
  match j with
  | .obj fs => do
    let aem ← decodeField fs "api_endpoints_modified" asInt
    let aea ← decodeField fs "api_endpoints_added" asInt
    let aer ← decodeField fs "api_endpoints_removed" asInt
    let dtm ← decodeField fs "database_tables_modified" asInt
    let dta ← decodeField fs "database_tables_added" asInt
    let dtr ← decodeField fs "database_tables_removed" asInt
    let rl ← decodeField fs "risk_level" decodeRisk
    let bc ← decodeField fs "breaking_changes" asBool
    let kf ← decodeField fs "key_findings" (asListOf asStr)
    some ⟨aem, aea, aer, dtm, dta, dtr, rl, bc, kf⟩
  | _ => none

/-- Read an `ApiChange.details` object. -/
def decodeApiDetails (j : Json) : Option ApiChangeDetails :=
  match j with
  | .obj fs => do
    let pc ← decodeOptField fs "parameters_changed" (asListOf asStr)
    let rsc ← decodeOptField fs "response_schema_changed" asBool
    let bc ← decodeOptField fs "breaking_changes" (asListOf asStr)
    some ⟨pc, rsc, bc⟩
  | _ => none

/-- Read an `ApiChange` object. -/
def decodeApiChange (j : Json) : Option ApiChange :=
  match j with
  | .obj fs => do
    let ep ← decodeField fs "endpoint" asStr
    let me ← decodeField fs "method" asStr
    let ct ← decodeField fs "change_type" decodeChangeType
    let su ← decodeField fs "summary" asStr
    let de ← decodeOptField fs "details" decodeApiDetails
    some ⟨ep, me, ct, su, de⟩
  | _ => none

/-- Read a `DatabaseChange.details` object. -/
def decodeDbDetails (j : Json) : Option DatabaseChangeDetails :=
  match j with
  | .obj fs => do
    let ca ← decodeOptField fs "columns_added" (asListOf asStr)
    let cr ← decodeOptField fs "columns_removed" (asListOf asStr)
    let cm ← decodeOptField fs "columns_modified" (asListOf asStr)
    let ic ← decodeOptField fs "indexes_changed" (asListOf asStr)
    some ⟨ca, cr, cm, ic⟩
  | _ => none

/-- Read a `DatabaseChange` object. -/
def decodeDbChange (j : Json) : Option DatabaseChange :=
  match j with
  | .obj fs => do
    let tn ← decodeField fs "table_name" asStr
    let ct ← decodeField fs "change_type" decodeChangeType
    let su ← decodeField fs "summary" asStr
    let de ← decodeOptField fs "details" decodeDbDetails
    some ⟨tn, ct, su, de⟩
  | _ => none

/-- Read a whole `AssessmentResults` document. -/
def decodeResultsJson (j : Json) : Option AssessmentResults :=
  match j with
  | .obj fs => do
    let id ← decodeField fs "id" asStr
    let rid ← decodeField fs "request_id" asStr
    let su ← decodeField fs "summary" decodeSummary
    let ac ← decodeNullableField fs "api_changes" (asListOf decodeApiChange)
    let dc ← decodeNullableField fs "database_changes" (asListOf decodeDbChange)
    let rd ← getField fs "raw_data"
    let ga ← decodeField fs "generated_at" asStr
    some ⟨id, rid, su, ac, dc, rd, ga⟩
  | _ => none

/-- Parse an exported document and read it back field-for-field. -/
def reparseResults (s : String) : Option AssessmentResults :=
  (parseJson s).bind decodeResultsJson

/- ### Results renderer: `generateMarkdown` and `handleDownload`
(`src/src/pages/Results.tsx`). -/

/-- Modelled from the platform: `new Date(s).toLocaleString()` as invoked
by `generateMarkdown` (`Results.tsx` line 110), for the en-US default
locale with a UTC zone, on the ISO-8601 UTC instants the backend stores
(`YYYY-MM-DDTHH:MM:SS`, optionally `.fff`, ending in `Z` or `+00:00`).
The output is `M/D/YYYY, h:MM:SS AM` (or `PM`); any other input renders as
`Invalid Date`.  The one property the proofs rely on is that the timestamp
is reformatted, not copied. -/
def dateToLocaleString (s : String) : String :=
  match s.data with
  | y1 :: y2 :: y3 :: y4 :: '-' :: m1 :: m2 :: '-' :: d1 :: d2 :: 'T'
      :: h1 :: h2 :: ':' :: mi1 :: mi2 :: ':' :: s1 :: s2 :: rest =>
    if ([y1, y2, y3, y4, m1, m2, d1, d2, h1, h2, mi1, mi2, s1, s2].all
          Char.isDigit)
        && isoTail rest then
      let year := digitsVal [y1, y2, y3, y4]
      let month := digitsVal [m1, m2]
      let day := digitsVal [d1, d2]
      let hour := digitsVal [h1, h2]
      let minute := digitsVal [mi1, mi2]
      let second := digitsVal [s1, s2]
      if 1 ≤ month && month ≤ 12 && 1 ≤ day && day ≤ 31 && hour ≤ 23
          && minute ≤ 59 && second ≤ 59 then
        let hour12 := if hour % 12 = 0 then 12 else hour % 12
        String.mk (natDigits month ++ '/' :: natDigits day ++ '/'
          :: natDigits year ++ ',' :: ' ' :: natDigits hour12 ++ ':'
          :: pad2 minute ++ ':' :: pad2 second
          ++ [' ', if hour < 12 then 'A' else 'P', 'M'])
      else "Invalid Date"
    else "Invalid Date"
  | _ => "Invalid Date"
where
  /-- Zero-padded two-digit rendering. -/
  pad2 (n : Nat) : List Char :=
    if n < 10 then '0' :: natDigits n else natDigits n
  /-- The admitted instant endings. -/
  isoTail : List Char → Bool
    | ['Z'] => true
    | ['+', '0', '0', ':', '0', '0'] => true
    | ['.', f1, f2, f3, 'Z'] => f1.isDigit && f2.isDigit && f3.isDigit
    | _ => false

/-- JavaScript number interpolation for the integers of this data model. -/
def intStr (n : Int) : String := ⟨intChars n⟩

/-- The markdown emitted by `generateMarkdown` before the interpolated
`toLocaleString` timestamp (`Results.tsx` lines 107-110). -/
def mdBeforeGenerated (request : AssessmentRequest) : String :=
  "# Impact Assessment Report\n\n"
    ++ ("**Request ID:** " ++ request.id ++ "\n")
    ++ ("**Report Type:** " ++ reportTypeStr request.report_type ++ "\n")
    ++ "**Generated:** "

/-- The `## Summary` block (`Results.tsx` lines 112-120). -/
def mdSummarySection (s : AssessmentSummary) : String :=
  "## Summary\n\n"
    ++ ("- **API Endpoints Modified:** " ++ intStr s.api_endpoints_modified ++ "\n")
    ++ ("- **API Endpoints Added:** " ++ intStr s.api_endpoints_added ++ "\n")
    ++ ("- **API Endpoints Removed:** " ++ intStr s.api_endpoints_removed ++ "\n")
    ++ ("- **Database Tables Modified:** " ++ intStr s.database_tables_modified ++ "\n")
    ++ ("- **Database Tables Added:** " ++ intStr s.database_tables_added ++ "\n")
    ++ ("- **Database Tables Removed:** " ++ intStr s.database_tables_removed ++ "\n")
    ++ ("- **Risk Level:** " ++ riskStr s.risk_level ++ "\n")
    ++ ("- **Breaking Changes:** " ++ (if s.breaking_changes then "Yes" else "No")
        ++ "\n\n")

/-- The `## Key Findings` block (`Results.tsx` lines 122-128). -/
def mdFindingsSection (findings : List String) : String :=
  if findings.length > 0 then
    "## Key Findings\n\n"
      ++ String.join (findings.map fun finding => "- " ++ finding ++ "\n")
      ++ "\n"
  else ""

/-- The `## API Changes` block (`Results.tsx` lines 130-138). -/
def mdApiSection (changes : Option (List ApiChange)) : String :=
  match changes with
  | some l =>
    if l.length > 0 then
      "## API Changes\n\n"
        ++ String.join (l.map fun change =>
            ("### " ++ change.endpoint ++ "\n")
              ++ ("- **Method:** " ++ change.method ++ "\n")
              ++ ("- **Type:** " ++ changeTypeStr change.change_type ++ "\n")
              ++ ("- **Summary:** " ++ change.summary ++ "\n\n"))
    else ""
  | none => ""

/-- The `## Database Changes` block (`Results.tsx` lines 140-147). -/
def mdDbSection (changes : Option (List DatabaseChange)) : String :=
  match changes with
  | some l =>
    if l.length > 0 then
      "## Database Changes\n\n"
        ++ String.join (l.map fun change =>
            ("### " ++ change.table_name ++ "\n")
              ++ ("- **Type:** " ++ changeTypeStr change.change_type ++ "\n")
              ++ ("- **Summary:** " ++ change.summary ++ "\n\n"))
    else ""
  | none => ""

/-- `generateMarkdown` (`Results.tsx` lines 104-150), for a loaded request
and results pair (the early `return ''` on missing state falls away in
this typed form). -/
def generateMarkdown (request : AssessmentRequest)
    (results : AssessmentResults) : String :=
  mdBeforeGenerated request
    ++ dateToLocaleString results.generated_at
    ++ ("\n\n" ++ mdSummarySection results.summary
        ++ mdFindingsSection results.summary.key_findings
        ++ mdApiSection results.api_changes
        ++ mdDbSection results.database_changes)

/-- The three nominal export formats of `handleDownload`. -/
inductive DownloadFormat where
  | pdf
  | json
  | markdown
  deriving DecidableEq

/-- The file content built by `handleDownload` (`Results.tsx` lines
70-83): `json` and the nominal `pdf` both serialize the result object;
`markdown` renders the derived document.  No PDF rendering exists. -/
def handleDownloadContent (request : AssessmentRequest)
    (results : AssessmentResults) : DownloadFormat → String
  | .json => stringifyResults results
  | .markdown => generateMarkdown request results
  | .pdf => stringifyResults results

/- ### Concrete fixtures for counterexamples and witnesses. -/

/-- A queued request with no title whose id contains `bc` away from the
start. -/
def cexReq : AssessmentRequest :=
  ⟨"a7bc1234", "user-1", .api, "rel-20", "rel-21", .notApplicable, none,
   none, .queued, none, true, true, "2026-02-03T10:00:00Z",
   "2026-02-03T10:00:00Z", none⟩

/-- A completed request used as the enclosing request of markdown
fixtures. -/
def mdReq : AssessmentRequest :=
  ⟨"ab12cd34", "user-1", .api, "rel-20", "rel-21", .production, none, none,
   .completed, none, true, true, "2026-01-01T00:00:00Z",
   "2026-01-01T17:50:00Z", some "2026-01-01T17:43:10Z"⟩

/-- A minimal results row with the sample timestamp. -/
def mdRes : AssessmentResults :=
  ⟨"res-1", "ab12cd34", ⟨3, 1, 0, 2, 0, 1, .medium, true, []⟩, none, none,
   .obj .nil, "2026-01-01T17:43:10.000Z"⟩

/-- The two seeded releases the submission-validation witness selects. -/
def witReleases : List Release :=
  [⟨"rel-20", "EB20", "2026-01-01T00:00:00Z", true, "2026-01-01T00:00:00Z"⟩,
   ⟨"rel-21", "EB21", "2026-01-01T00:00:00Z", true, "2026-01-01T00:00:00Z"⟩]

/-- A form whose current release is EB21 and whose target is EB20. -/
def witFormBackwards : SubmissionForm :=
  ⟨some .api, "rel-21", "rel-20", "", .notApplicable, "", true, true⟩

end ReleasePortal

namespace ReleasePortal

/-! ## Theorems. -/

/-- `(a ++ b).data` is the concatenation of the character lists. -/
theorem data_append (a b : String) : (a ++ b).data = a.data ++ b.data := rfl

/-- `startsWith` holds of a sequence followed by anything. -/
theorem startsWith_append (n b : List Char) : startsWith n (n ++ b) = true := by
  induction n with
  | nil => rfl
  | cons c t ih => simp [startsWith, ih]

/-- A sequence occurs in any material that embeds it contiguously. -/
theorem occursIn_middle (a n b : List Char) :
    occursIn n (a ++ (n ++ b)) = true := by
  induction a with
  | nil => simp [occursIn.eq_def, startsWith_append]
  | cons c t ih =>
    rw [List.cons_append, occursIn.eq_def]
    split
    · rfl
    · exact ih

/- ### C1, C2, C9, C10, C6. -/

/-- C1: in the request detail view, the cancel control is rendered iff the
request's status is Queued or Running; for Completed and Failed it is not
rendered. -/
theorem cancel_affordance_iff (s : RequestStatus) :
    (cancelControlVisible s = true ↔ (s = .queued ∨ s = .running))
      ∧ cancelControlVisible .completed = false
      ∧ cancelControlVisible .failed = false := by
  refine ⟨?_, rfl, rfl⟩
  cases s <;> simp [cancelControlVisible]

/-- C2: the cancellation update sets `status` to Failed and
`error_message` to `Canceled by user`, and leaves every other column of
the request row unchanged; rows with a different id are not touched at
all. -/
theorem cancel_update_frame (r : AssessmentRequest)
    (rows : List AssessmentRequest) (id : String) :
    (applyCancelUpdate r).status = .failed
      ∧ (applyCancelUpdate r).error_message = some "Canceled by user"
      ∧ (applyCancelUpdate r).id = r.id
      ∧ (applyCancelUpdate r).user_id = r.user_id
      ∧ (applyCancelUpdate r).report_type = r.report_type
      ∧ (applyCancelUpdate r).current_release_id = r.current_release_id
      ∧ (applyCancelUpdate r).target_release_id = r.target_release_id
      ∧ (applyCancelUpdate r).environment = r.environment
      ∧ (applyCancelUpdate r).title = r.title
      ∧ (applyCancelUpdate r).description = r.description
      ∧ (applyCancelUpdate r).email_notification = r.email_notification
      ∧ (applyCancelUpdate r).inapp_notification = r.inapp_notification
      ∧ (applyCancelUpdate r).created_at = r.created_at
      ∧ (applyCancelUpdate r).completed_at = r.completed_at
      ∧ (∀ q ∈ rows, q.id ≠ id → q ∈ cancelUpdateTable rows id) := by
  refine ⟨rfl, rfl, rfl, rfl, rfl, rfl, rfl, rfl, rfl, rfl, rfl, rfl, rfl,
    rfl, ?_⟩
  intro q hq hne
  have : (fun r => if r.id = id then applyCancelUpdate r else r) q = q := by
    simp [hne]
  exact this ▸ List.mem_map_of_mem _ hq

/-- C9: the storage path built for each uploaded attachment is the owner
id, the new request id and the original file name joined by `/`. -/
theorem attachment_path_shape (userId requestId : String)
    (files : List FileMeta) :
    attachmentUploadPaths userId requestId files
        = files.map (fun f => attachmentFilePath userId requestId f.name)
      ∧ ∀ f ∈ files,
          (attachmentFilePath userId requestId f.name).data
            = userId.data ++ '/' :: (requestId.data ++ '/' :: f.name.data) := by
  refine ⟨rfl, fun f _ => ?_⟩
  simp [attachmentFilePath, data_append]

/-- C10: `handleCancel` checks only that a request is loaded: whatever the
current status — Completed and Failed included — it issues the update
writing `status = Failed`, `error_message = Canceled by user` against the
request's row. -/
theorem handleCancel_ignores_status (r : AssessmentRequest)
    (s : RequestStatus) :
    handleCancel (some { r with status := s })
      = some ⟨"assessment_requests", .failed, "Canceled by user", r.id⟩ := rfl

/-- C6: the `pdf` download branch produces exactly the `json` branch's
content — the pretty-printed JSON serialization of the result object; no
PDF rendering exists. -/
theorem pdf_download_is_json (request : AssessmentRequest)
    (results : AssessmentResults) :
    handleDownloadContent request results .pdf
        = handleDownloadContent request results .json
      ∧ handleDownloadContent request results .pdf
        = stringifyResults results :=
  ⟨rfl, rfl⟩

/- ### C3: the release-pair ordering rule of `validate`. -/

/-- C3: when both releases are selected and resolve, `validate` reports
the target-ordering error exactly when the current release's version
string is lexically greater than or equal to the target's. -/
theorem validate_target_ordering (releases : List Release)
    (form : SubmissionForm) (files : List FileMeta) (cur tgt : Release)
    (hc : form.currentReleaseId ≠ "") (ht : form.targetReleaseId ≠ "")
    (hfc : releases.find? (fun r => r.id = form.currentReleaseId) = some cur)
    (hft : releases.find? (fun r => r.id = form.targetReleaseId) = some tgt) :
    (validate releases form files).targetReleaseId = some targetOrderMsg
      ↔ tgt.version ≤ cur.version := by
  simp only [validate, apply_ite (FormErrors.targetReleaseId), hfc, hft,
    if_pos (And.intro hc ht), if_neg ht]
  by_cases hlt : cur.version < tgt.version
  · have hge : jsStrGe cur.version tgt.version = false := by simp [jsStrGe, hlt]
    simp [hge, not_le.mpr hlt]
  · have hge : jsStrGe cur.version tgt.version = true := by simp [jsStrGe, hlt]
    simp [hge, not_lt.mp hlt]

/-- Witness for C3 at the seeded releases: current EB21, target EB20 is
rejected with the target-ordering error. -/
theorem validate_target_ordering_witness :
    (validate witReleases witFormBackwards []).targetReleaseId
      = some targetOrderMsg :=
  (validate_target_ordering witReleases witFormBackwards []
    ⟨"rel-21", "EB21", "2026-01-01T00:00:00Z", true, "2026-01-01T00:00:00Z"⟩
    ⟨"rel-20", "EB20", "2026-01-01T00:00:00Z", true, "2026-01-01T00:00:00Z"⟩
    (by decide) (by decide) (by decide) (by decide)).mpr
    (by
      have hlt : ("EB20" : String) < "EB21" :=
        String.lt_iff_toList_lt.mpr (by decide)
      exact le_of_lt hlt)

/- ### C4: attachment acceptance and the aggregate limits. -/

/-- `acceptFile` in the claim's explicit terms. -/
theorem acceptFile_spelled (f : FileMeta) :
    acceptFile f = decide ((f.type = "application/pdf" ∨ f.type = "text/plain"
      ∨ f.type = "text/markdown" ∨ f.type = "application/json"
      ∨ f.type = "application/xml" ∨ f.type = "text/xml")
      ∧ f.size ≤ 10 * 1024 * 1024) := by
  rw [Bool.eq_iff_iff, decide_eq_true_iff]
  simp [acceptFile, List.elem_iff, validTypes]

/-- The `attachments` error key `validate` ends with: the over-50MiB
message wins, then the over-5-files message, else no key. -/
theorem validate_attachments_key (releases : List Release)
    (form : SubmissionForm) (files : List FileMeta) :
    (validate releases form files).attachments
      = if files.foldl (fun sum file => sum + file.size) 0 > 50 * 1024 * 1024
          then some "Total file size cannot exceed 50MB"
          else if files.length > 5 then some "Maximum 5 files allowed"
          else none := by
  simp only [validate, apply_ite (FormErrors.attachments)]
  split
  · rfl
  · split
    · rfl
    · split
      · split <;> split <;> rfl
      · rfl

/-- C4: a selected file joins the accepted set iff its MIME type is in the
allow-list and its size is at most 10MiB (an exactly-10MiB PDF passes, a
10.1MB one does not); the aggregate rejection message is set iff some
selected file failed the check; and validation blocks submission whenever
more than 5 files are accepted or their sizes sum over 50MiB. -/
theorem attachment_rules (prev files : List FileMeta) (e : FormErrors)
    (releases : List Release) (form : SubmissionForm) :
    (handleFileChange prev e files).1
        = prev ++ files.filter (fun f => decide ((f.type = "application/pdf"
            ∨ f.type = "text/plain" ∨ f.type = "text/markdown"
            ∨ f.type = "application/json" ∨ f.type = "application/xml"
            ∨ f.type = "text/xml") ∧ f.size ≤ 10 * 1024 * 1024))
      ∧ acceptFile ⟨"r.pdf", "application/pdf", 10 * 1024 * 1024⟩ = true
      ∧ acceptFile ⟨"r.pdf", "application/pdf", 10590618⟩ = false
      ∧ ((handleFileChange prev e files).2.attachments = some rejectedFilesMsg
          ↔ ∃ f ∈ files, acceptFile f = false)
      ∧ (files.length > 5
            ∨ files.foldl (fun sum file => sum + file.size) 0 > 50 * 1024 * 1024
          → (validate releases form files).isEmpty = false) := by
  have hiff : ((files.filter acceptFile).length < files.length)
      ↔ ∃ f ∈ files, acceptFile f = false := by
    rw [List.length_filter_lt_length_iff_exists]
    simp
  have hred : (handleFileChange prev e files).2.attachments
      = if (files.filter acceptFile).length < files.length
          then some rejectedFilesMsg else none := by
    simp only [handleFileChange, apply_ite (FormErrors.attachments)]
  refine ⟨?_, by decide, by decide, ?_, ?_⟩
  · show prev ++ files.filter acceptFile = _
    exact congrArg (prev ++ ·) (List.filter_congr fun f _ => acceptFile_spelled f)
  · rw [hred]
    by_cases hlt : (files.filter acceptFile).length < files.length
    · simp [hlt, hiff.mp hlt]
    · simp only [if_neg hlt]
      constructor
      · intro habs
        exact absurd habs (by simp)
      · intro hex
        exact absurd (hiff.mpr hex) hlt
  · intro hover
    have hne : (validate releases form files).attachments ≠ none := by
      rw [validate_attachments_key]
      rcases hover with h5 | h50
      · by_cases h50' : files.foldl (fun sum file => sum + file.size) 0
            > 50 * 1024 * 1024
        · rw [if_pos h50']; simp
        · rw [if_neg h50', if_pos h5]; simp
      · rw [if_pos h50]; simp
    rcases hx : (validate releases form files).attachments with _ | v
    · exact absurd hx hne
    · simp [FormErrors.isEmpty, hx]

/- ### C5: markdown export and the `generated_at` timestamp. -/

set_option maxRecDepth 10000 in
/-- C5 counterexample: at a concrete results fixture, the Markdown export
does not contain the `generated_at` string verbatim — the generator passes
it through `new Date(...).toLocaleString()`, whose rendering is what
appears. -/
theorem markdown_timestamp_not_verbatim :
    occursIn "2026-01-01T17:43:10.000Z".data
        (generateMarkdown mdReq mdRes).data = false
      ∧ mdRes.generated_at = "2026-01-01T17:43:10.000Z"
      ∧ dateToLocaleString mdRes.generated_at = "1/1/2026, 5:43:10 PM" :=
  ⟨by decide, rfl, by decide⟩

/-- C5 (amended): for a fixed `AssessmentResults` and request, repeated
calls of the Markdown generator return the same string, and the
`toLocaleString` rendering of `generated_at` — not the raw timestamp —
appears in the generated Markdown. -/
theorem markdown_deterministic_formats_timestamp
    (request : AssessmentRequest) (results : AssessmentResults) :
    generateMarkdown request results = generateMarkdown request results
      ∧ occursIn (dateToLocaleString results.generated_at).data
          (generateMarkdown request results).data = true := by
  refine ⟨rfl, ?_⟩
  show occursIn _ ((mdBeforeGenerated request
      ++ dateToLocaleString results.generated_at ++ _).data) = true
  rw [data_append, data_append, List.append_assoc]
  exact occursIn_middle _ _ _

/- ### C8: the dashboard's client-side filter. -/

/-- C8 counterexample: the id match of `filteredRequests` is a substring
test, not a prefix test: the term `bc` retains a title-less request whose
id merely contains `bc`, which the claimed prefix-or-title rule would
drop. -/
theorem dashboard_filter_not_id_prefix :
    filteredRequests [cexReq] "bc" "all" = [cexReq]
      ∧ startsWith "bc".data cexReq.id.data = false
      ∧ cexReq.title = none := by
  decide

/-- C8 (amended): a request is retained by the dashboard filter iff the
search term occurs anywhere in its id (case-sensitive), or occurs
case-insensitively in its title when one is set, and the status filter is
`all` or equals the request's status; the filter preserves the fetched
newest-first `created_at` ordering. -/
theorem dashboard_filter_characterization
    (requests : List AssessmentRequest) (searchTerm statusFilter : String) :
    (∀ req, req ∈ filteredRequests requests searchTerm statusFilter
        ↔ req ∈ requests
          ∧ ((occursIn searchTerm.data req.id.data = true
              ∨ ∃ t, req.title = some t
                  ∧ occursIn searchTerm.toLower.data t.toLower.data = true)
          ∧ (statusFilter = "all" ∨ statusStr req.status = statusFilter)))
      ∧ (List.Pairwise newestFirst requests
          → List.Pairwise newestFirst
              (filteredRequests requests searchTerm statusFilter)) := by
  constructor
  · intro req
    rw [filteredRequests, List.mem_filter]
    refine and_congr_right fun _ => ?_
    rw [Bool.and_eq_true]
    refine and_congr ?_ ?_
    · cases htitle : req.title with
      | none => simp [matchesSearch, jsIncludes, htitle]
      | some t => simp [matchesSearch, jsIncludes, htitle]
    · simp [matchesStatus]
  · exact fun h => List.Pairwise.filter _ h

/- ### Digits, whitespace, strings: lemmas toward the JSON round-trip. -/

/-- Facts about a single decimal digit. -/
theorem digitChar_facts : ∀ n, n < 10 →
    (digitChar n).isDigit = true ∧ digitVal (digitChar n) = n := by decide

/-- The digit budget is irrelevant once it exceeds the value. -/
theorem natDigitsGo_congr :
    ∀ f f' n, n < f → n < f' → natDigitsGo f n = natDigitsGo f' n := by
  intro f
  induction f with
  | zero => omega
  | succ fa ih =>
    intro f' n hn hn'
    cases f' with
    | zero => omega
    | succ fb =>
      by_cases h10 : n < 10
      · simp [natDigitsGo, h10]
      · have hd : n / 10 < n := Nat.div_lt_self (by omega) (by omega)
        simp only [natDigitsGo, if_neg h10]
        rw [ih fb (n / 10) (by omega) (by omega)]

/-- The one-step unfolding of `natDigits`. -/
theorem natDigits_eq (n : Nat) :
    natDigits n = if n < 10 then [digitChar n]
      else natDigits (n / 10) ++ [digitChar (n % 10)] := by
  by_cases h10 : n < 10
  · simp [natDigits, natDigitsGo, h10]
  · have hd : n / 10 < n := Nat.div_lt_self (by omega) (by omega)
    rw [if_neg h10]
    show natDigitsGo (n + 1) n = _
    rw [show natDigitsGo (n + 1) n = if n < 10 then [digitChar n]
          else natDigitsGo n (n / 10) ++ [digitChar (n % 10)] from rfl,
      if_neg h10,
      natDigitsGo_congr n (n / 10 + 1) (n / 10) (by omega) (by omega)]
    rfl

/-- Every character of `natDigits` is a decimal digit, and the list is
nonempty. -/
theorem natDigits_digits (n : Nat) :
    (∀ c ∈ natDigits n, c.isDigit = true) ∧ natDigits n ≠ [] := by
  induction n using Nat.strong_induction_on with
  | _ n ih =>
    rw [natDigits_eq]
    by_cases h10 : n < 10
    · rw [if_pos h10]
      refine ⟨?_, by simp⟩
      intro c hc
      rw [List.mem_singleton] at hc
      subst hc
      exact (digitChar_facts n h10).1
    · have hd : n / 10 < n := Nat.div_lt_self (by omega) (by omega)
      rw [if_neg h10]
      refine ⟨?_, by simp⟩
      intro c hc
      rcases List.mem_append.mp hc with h | h
      · exact ((ih _ hd).1) c h
      · rw [List.mem_singleton] at h
        subst h
        exact (digitChar_facts _ (Nat.mod_lt _ (by omega))).1

/-- `digitsVal` unzips an appended digit. -/
theorem digitsVal_append (l : List Char) (c : Char) :
    digitsVal (l ++ [c]) = 10 * digitsVal l + digitVal c := by
  simp [digitsVal, List.foldl_append]

/-- `digitsVal` inverts `natDigits`. -/
theorem digitsVal_natDigits (n : Nat) : digitsVal (natDigits n) = n := by
  induction n using Nat.strong_induction_on with
  | _ n ih =>
    rw [natDigits_eq]
    by_cases h10 : n < 10
    · rw [if_pos h10]
      have hv := (digitChar_facts n h10).2
      simp [digitsVal, hv]
    · have hd : n / 10 < n := Nat.div_lt_self (by omega) (by omega)
      rw [if_neg h10, digitsVal_append, ih _ hd,
        (digitChar_facts _ (Nat.mod_lt _ (by omega))).2]
      omega

/-- `takeWhile`/`dropWhile` split an all-digit run from a non-digit
continuation. -/
theorem span_digits (l r : List Char) (hl : ∀ c ∈ l, c.isDigit = true)
    (hr : noDigitHead r) :
    (l ++ r).takeWhile Char.isDigit = l
      ∧ (l ++ r).dropWhile Char.isDigit = r := by
  induction l with
  | nil =>
    simp only [List.nil_append]
    cases r with
    | nil => exact ⟨rfl, rfl⟩
    | cons c t =>
      have : c.isDigit = false := hr
      simp [List.takeWhile_cons, List.dropWhile_cons, this]
  | cons c t ih =>
    have hc : c.isDigit = true := hl c (by simp)
    have ht : ∀ x ∈ t, x.isDigit = true := fun x hx => hl x (by simp [hx])
    have := ih ht
    simp [List.takeWhile_cons, List.dropWhile_cons, hc, this.1, this.2]

/-- `parseNat` inverts `natDigits` whenever what follows cannot extend the
literal. -/
theorem parseNat_natDigits (n : Nat) (r : List Char) (hr : noDigitHead r) :
    parseNat (natDigits n ++ r) = some (n, r) := by
  have hd := natDigits_digits n
  have hs := span_digits (natDigits n) r hd.1 hr
  rw [parseNat, hs.1, hs.2]
  rcases hnd : natDigits n with _ | ⟨c, cs⟩
  · exact absurd hnd hd.2
  · show some (digitsVal (c :: cs), r) = some (n, r)
    rw [← hnd, digitsVal_natDigits]

/-- Skipping whitespace passes over an all-whitespace block. -/
theorem skipWs_ws_append (w s : List Char)
    (hw : ∀ c ∈ w, isWsChar c = true) : skipWs (w ++ s) = skipWs s := by
  induction w with
  | nil => rfl
  | cons c t ih =>
    have hc : isWsChar c = true := hw c (by simp)
    have ht : ∀ x ∈ t, isWsChar x = true := fun x hx => hw x (by simp [hx])
    simp [skipWs, hc, ih ht]

/-- Skipping whitespace stops at a non-whitespace head. -/
theorem skipWs_not_ws (c : Char) (r : List Char) (h : isWsChar c = false) :
    skipWs (c :: r) = c :: r := by
  simp [skipWs, h]

/-- Hexadecimal digits round-trip. -/
theorem hexVal_hexDig : ∀ n, n < 16 → hexVal (hexDig n) = some n := by decide

/-- Reading one escaped character undoes `escChar`. -/
theorem parseStrBody_escChar (c : Char) (tail : List Char) :
    parseStrBody (escChar c ++ tail) = consFst c (parseStrBody tail) := by
  by_cases h1 : c = '"'
  · subst h1
    rw [escChar, if_pos rfl, List.cons_append, List.cons_append,
      List.nil_append, parseStrBody.eq_def]
    simp [unescChar]
  by_cases h2 : c = '\\'
  · subst h2
    rw [escChar, if_neg h1, if_pos rfl, List.cons_append, List.cons_append,
      List.nil_append, parseStrBody.eq_def]
    simp [unescChar]
  by_cases h3 : c = Char.ofNat 8
  · subst h3
    rw [escChar, if_neg h1, if_neg h2, if_pos rfl, List.cons_append,
      List.cons_append, List.nil_append, parseStrBody.eq_def]
    simp [unescChar]
  by_cases h4 : c = Char.ofNat 12
  · subst h4
    rw [escChar, if_neg h1, if_neg h2, if_neg h3, if_pos rfl,
      List.cons_append, List.cons_append, List.nil_append, parseStrBody.eq_def]
    simp [unescChar]
  by_cases h5 : c = '\n'
  · subst h5
    rw [escChar, if_neg h1, if_neg h2, if_neg h3, if_neg h4, if_pos rfl,
      List.cons_append, List.cons_append, List.nil_append, parseStrBody.eq_def]
    simp [unescChar]
  by_cases h6 : c = '\r'
  · subst h6
    rw [escChar, if_neg h1, if_neg h2, if_neg h3, if_neg h4, if_neg h5,
      if_pos rfl, List.cons_append, List.cons_append, List.nil_append,
      parseStrBody.eq_def]
    simp [unescChar]
  by_cases h7 : c = '\t'
  · subst h7
    rw [escChar, if_neg h1, if_neg h2, if_neg h3, if_neg h4, if_neg h5,
      if_neg h6, if_pos rfl, List.cons_append, List.cons_append,
      List.nil_append, parseStrBody.eq_def]
    simp [unescChar]
  by_cases h8 : c.toNat < 32
  · have hq : c.toNat / 16 < 16 := by omega
    have hrm : c.toNat % 16 < 16 := by omega
    have harith : ((0 * 16 + 0) * 16 + c.toNat / 16) * 16 + c.toNat % 16
        = c.toNat := by omega
    rw [escChar, if_neg h1, if_neg h2, if_neg h3, if_neg h4, if_neg h5,
      if_neg h6, if_neg h7, if_pos h8]
    simp only [List.cons_append, List.nil_append]
    rw [parseStrBody.eq_def]
    simp only [if_neg (show ¬ ('\\' : Char) = '"' by decide), if_pos rfl,
      if_pos rfl]
    rw [show hexVal '0' = some 0 from by decide, hexVal_hexDig _ hq,
      hexVal_hexDig _ hrm]
    simp only [harith, Char.ofNat_toNat]
    simp
  · rw [escChar, if_neg h1, if_neg h2, if_neg h3, if_neg h4, if_neg h5,
      if_neg h6, if_neg h7, if_neg h8]
    simp only [List.cons_append, List.nil_append]
    rw [parseStrBody.eq_def]
    simp [h1, h2]

/-- Reading a whole string body undoes `escStr` up to the closing quote. -/
theorem parseStrBody_escStr (s : List Char) (r : List Char) :
    parseStrBody (escStr s ++ '"' :: r) = some (s, r) := by
  induction s with
  | nil =>
    rw [escStr, List.nil_append, parseStrBody.eq_def]
    simp
  | cons c cs ih =>
    rw [escStr, List.append_assoc, parseStrBody_escChar, ih]
    rfl

/-- Every JSON value has positive size. -/
theorem jsize_pos (j : Json) : 1 ≤ jsize j := by
  cases j <;> simp [jsize]

/-- Every item list has positive size. -/
theorem isize_pos (t : JsonItems) : 1 ≤ isize t := by
  cases t <;> simp [isize]

/-- Every member list has positive size. -/
theorem fsize_pos (t : JsonFields) : 1 ≤ fsize t := by
  cases t <;> simp [fsize]

/-- Reading a value ignores leading whitespace. -/
theorem parseV_ws (fuel : Nat) (w s : List Char)
    (hw : ∀ c ∈ w, isWsChar c = true) :
    parseV fuel (w ++ s) = parseV fuel s := by
  cases fuel with
  | zero => rfl
  | succ f => simp only [parseV, skipWs_ws_append w s hw]

/-- Reading items ignores leading whitespace. -/
theorem parseItems_ws (fuel : Nat) (w s : List Char)
    (hw : ∀ c ∈ w, isWsChar c = true) :
    parseItems fuel (w ++ s) = parseItems fuel s := by
  cases fuel with
  | zero => rfl
  | succ f => simp only [parseItems, parseV_ws f w s hw]

/-- Reading members ignores leading whitespace. -/
theorem parseFields_ws (fuel : Nat) (w s : List Char)
    (hw : ∀ c ∈ w, isWsChar c = true) :
    parseFields fuel (w ++ s) = parseFields fuel s := by
  cases fuel with
  | zero => rfl
  | succ f => simp only [parseFields, skipWs_ws_append w s hw]

/-- A digit character is none of the reader's structural characters. -/
theorem digit_char_facts (c : Char) (h : c.isDigit = true) :
    isWsChar c = false ∧ c ≠ '"' ∧ c ≠ '[' ∧ c ≠ ']' ∧ c ≠ obrace
      ∧ c ≠ cbrace ∧ c ≠ ',' ∧ c ≠ 't' ∧ c ≠ 'f' ∧ c ≠ 'n' ∧ c ≠ '-' := by
  refine ⟨?_, ?_, ?_, ?_, ?_, ?_, ?_, ?_, ?_, ?_, ?_⟩
  · cases hw : isWsChar c
    · rfl
    · exfalso
      have hvals : c = ' ' ∨ c = '\n' ∨ c = '\x0d' ∨ c = '\t' := by
        simpa [isWsChar, or_assoc] using hw
      rcases hvals with h' | h' | h' | h' <;> subst h' <;>
        exact absurd h (by decide)
  all_goals intro he; subst he; exact absurd h (by decide)

/-- The indentation of array elements and object members is whitespace. -/
theorem indent_ws (ind : List Char) (hind : ∀ c ∈ ind, isWsChar c = true) :
    ∀ c ∈ ind ++ [' ', ' '], isWsChar c = true := by
  intro c hc
  rcases List.mem_append.mp hc with h | h
  · exact hind c h
  · rcases List.mem_cons.mp h with h' | h' <;> simp_all <;> decide

/-- A serialized value starts with a non-whitespace character that closes
nothing. -/
theorem serV_head (ind : List Char) (j : Json) :
    ∃ c cs, serV ind j = c :: cs ∧ isWsChar c = false
      ∧ c ≠ ']' ∧ c ≠ cbrace ∧ c ≠ ',' := by
  cases j with
  | null => exact ⟨'n', _, rfl, by decide, by decide, by decide, by decide⟩
  | bool b =>
    cases b
    · exact ⟨'f', _, rfl, by decide, by decide, by decide, by decide⟩
    · exact ⟨'t', _, rfl, by decide, by decide, by decide, by decide⟩
  | num n =>
    show ∃ c cs, intChars n = c :: cs ∧ _
    rw [intChars]
    by_cases hn : n < 0
    · exact ⟨'-', _, by rw [if_pos hn], by decide, by decide, by decide,
        by decide⟩
    · rw [if_neg hn]
      have hd := natDigits_digits n.natAbs
      rcases hnd : natDigits n.natAbs with _ | ⟨c, cs⟩
      · exact absurd hnd hd.2
      · have hc : c.isDigit = true := hd.1 c (by rw [hnd]; simp)
        have hf := digit_char_facts c hc
        exact ⟨c, cs, rfl, hf.1, hf.2.2.2.1, hf.2.2.2.2.2.1, hf.2.2.2.2.2.2.1⟩
  | str s => exact ⟨'"', _, rfl, by decide, by decide, by decide, by decide⟩
  | arr items =>
    cases items
    · exact ⟨'[', _, rfl, by decide, by decide, by decide, by decide⟩
    · exact ⟨'[', _, rfl, by decide, by decide, by decide, by decide⟩
  | obj fields =>
    cases fields
    · exact ⟨obrace, _, rfl, by decide, by decide, by decide, by decide⟩
    · exact ⟨obrace, _, rfl, by decide, by decide, by decide, by decide⟩

theorem parseV_succ (f : Nat) (s : List Char) :
    parseV (f + 1) s
      = match skipWs s with
        | [] => none
        | c :: r =>
          if c = '"' then
            (parseStrBody r).map fun p => (Json.str ⟨p.1⟩, p.2)
          else if c = '[' then
            match skipWs r with
            | ']' :: r2 => some (Json.arr .nil, r2)
            | r2 => (parseItems f r2).map fun p => (Json.arr p.1, p.2)
          else if c = obrace then
            match skipWs r with
            | [] => none
            | c2 :: r2 =>
              if c2 = cbrace then some (Json.obj .nil, r2)
              else (parseFields f (c2 :: r2)).map fun p => (Json.obj p.1, p.2)
          else if c = 't' then
            match r with
            | 'r' :: 'u' :: 'e' :: r2 => some (Json.bool true, r2)
            | _ => none
          else if c = 'f' then
            match r with
            | 'a' :: 'l' :: 's' :: 'e' :: r2 => some (Json.bool false, r2)
            | _ => none
          else if c = 'n' then
            match r with
            | 'u' :: 'l' :: 'l' :: r2 => some (Json.null, r2)
            | _ => none
          else if c = '-' then
            (parseNat r).map fun p => (Json.num (-(p.1 : Int)), p.2)
          else if c.isDigit then
            (parseNat (c :: r)).map fun p => (Json.num (p.1 : Int), p.2)
          else none := rfl

/-- Prepending a whitespace character preserves all-whitespace. -/
theorem cons_ws (c : Char) (hc : isWsChar c = true) (l : List Char)
    (hl : ∀ x ∈ l, isWsChar x = true) : ∀ x ∈ c :: l, isWsChar x = true := by
  intro x hx
  rcases List.mem_cons.mp hx with h | h
  · subst h; exact hc
  · exact hl x h

/-- The empty list is all-whitespace. -/
theorem nil_ws : ∀ x ∈ ([] : List Char), isWsChar x = true := by simp

/-- Reading a value ignores one leading whitespace character. -/
theorem parseV_ws_cons (fuel : Nat) (c : Char) (s : List Char)
    (hc : isWsChar c = true) : parseV fuel (c :: s) = parseV fuel s :=
  parseV_ws fuel [c] s (cons_ws c hc [] nil_ws)

/-- Reading items ignores one leading whitespace character. -/
theorem parseItems_ws_cons (fuel : Nat) (c : Char) (s : List Char)
    (hc : isWsChar c = true) : parseItems fuel (c :: s) = parseItems fuel s :=
  parseItems_ws fuel [c] s (cons_ws c hc [] nil_ws)

mutual

/-- The reader undoes the serializer on any value, for any sufficient
depth budget, whitespace indentation and non-digit continuation. -/
theorem parseV_serV (fuel : Nat) (ind : List Char) (j : Json)
    (rest : List Char) (hf : jsize j ≤ fuel)
    (hind : ∀ c ∈ ind, isWsChar c = true) (hrest : noDigitHead rest) :
    parseV fuel (serV ind j ++ rest) = some (j, rest) := by
  obtain ⟨f, rfl⟩ : ∃ f, fuel = f + 1 := by
    cases fuel
    · exact absurd hf (by have := jsize_pos j; omega)
    · exact ⟨_, rfl⟩
  cases j with
  | null =>
    simp [parseV, serV, skipWs, isWsChar,
      (show ('n' : Char) ≠ obrace by decide)]
  | bool b =>
    cases b <;>
      simp [parseV, serV, skipWs, isWsChar,
        (show ('t' : Char) ≠ obrace by decide),
        (show ('f' : Char) ≠ obrace by decide)]
  | str s =>
    simp [parseV, serV, qstr, skipWs, isWsChar, List.append_assoc,
      parseStrBody_escStr, (show ('"' : Char) ≠ obrace by decide)]
  | num n =>
    by_cases hn : n < 0
    · have hp : parseNat (natDigits n.natAbs ++ rest) = some (n.natAbs, rest) :=
        parseNat_natDigits _ rest hrest
      have habs : -|n| = n := by
        rw [abs_of_nonpos (le_of_lt hn)]; omega
      have hi : -((n.natAbs : Nat) : Int) = n := by
        rw [Int.natCast_natAbs]; exact habs
      simp [parseV, serV, intChars, hn, skipWs, isWsChar, List.append_assoc,
        hp, hi, habs, (show ('-' : Char) ≠ obrace by decide)]
    · show parseV (f + 1) (intChars n ++ rest) = _
      rw [intChars, if_neg hn]
      have hd := natDigits_digits n.natAbs
      rcases hnd : natDigits n.natAbs with _ | ⟨c, cs⟩
      · exact absurd hnd hd.2
      · have hc : c.isDigit = true := hd.1 c (by rw [hnd]; simp)
        obtain ⟨hw1, hq, hlb, _, hob, _, _, ht', hf', hn', hm'⟩ :=
          digit_char_facts c hc
        have hp : parseNat (c :: (cs ++ rest)) = some (n.natAbs, rest) := by
          have := parseNat_natDigits n.natAbs rest hrest
          rwa [hnd, List.cons_append] at this
        have habs : |n| = n := abs_of_nonneg (not_lt.mp hn)
        have hi : ((n.natAbs : Nat) : Int) = n := by
          rw [Int.natCast_natAbs]; exact habs
        simp [parseV, skipWs, hw1, hq, hlb, hob, ht', hf', hn', hm', hc,
          hp, hi, habs]
  | arr items =>
    cases items with
    | nil =>
      simp [parseV, serV, skipWs, isWsChar,
        (show ('[' : Char) ≠ obrace by decide)]
    | cons h t =>
      have hit2 := indent_ws ind hind
      have hsub := parseItems_serV f (ind ++ [' ', ' ']) ind h t rest
        (by simp only [jsize, isize] at hf; omega) hit2 hind
      obtain ⟨c0, cs0, hS, hw0, hrb0, -, -⟩ := serV_head (ind ++ [' ', ' ']) h
      have hshape : serV ind (.arr (.cons h t)) ++ rest
          = '[' :: (('\n' :: (ind ++ [' ', ' ']))
            ++ (serV (ind ++ [' ', ' ']) h
              ++ (serItems (ind ++ [' ', ' ']) t
                ++ ('\n' :: (ind ++ (']' :: rest)))))) := by
        show ('[' :: '\n' :: ((ind ++ [' ', ' ']) ++ serV (ind ++ [' ', ' ']) h
          ++ serItems (ind ++ [' ', ' ']) t ++ '\n' :: (ind ++ [']']))) ++ rest = _
        simp [List.append_assoc]
      rw [hshape, parseV_succ, skipWs_not_ws '[' _ (by decide)]
      show (match skipWs (('\n' :: (ind ++ [' ', ' ']))
          ++ (serV (ind ++ [' ', ' ']) h
            ++ (serItems (ind ++ [' ', ' ']) t
              ++ ('\n' :: (ind ++ (']' :: rest)))))) with
        | ']' :: r2 => some (Json.arr JsonItems.nil, r2)
        | r2 => Option.map (fun p => (Json.arr p.1, p.2)) (parseItems f r2))
        = some (Json.arr (JsonItems.cons h t), rest)
      rw [skipWs_ws_append _ _ (cons_ws '\n' (by decide) _ hit2),
        hS, List.cons_append, skipWs_not_ws c0 _ hw0]
      split
      · next r2 heq =>
        exact absurd (List.head_eq_of_cons_eq heq) hrb0
      · rw [← List.cons_append, ← hS, hsub]
        rfl
  | obj fields =>
    cases fields with
    | nil =>
      simp [parseV, serV, List.cons_append,
        skipWs_not_ws obrace _ (by decide),
        skipWs_not_ws cbrace _ (by decide),
        (show obrace ≠ '"' by decide), (show obrace ≠ '[' by decide)]
    | cons k v t =>
      have hit2 := indent_ws ind hind
      have hsub := parseFields_serV f (ind ++ [' ', ' ']) ind k v t rest
        (by simp only [jsize, fsize] at hf; omega) hit2 hind
      have hshape : serV ind (.obj (.cons k v t)) ++ rest
          = obrace :: (('\n' :: (ind ++ [' ', ' ']))
            ++ ('"' :: (escStr k.data ++ ('"' :: (':' :: ' '
              :: (serV (ind ++ [' ', ' ']) v
                ++ (serFields (ind ++ [' ', ' ']) t
                  ++ ('\n' :: (ind ++ (cbrace :: rest)))))))))) := by
        show (obrace :: '\n' :: ((ind ++ [' ', ' ']) ++ qstr k ++ ':' :: ' '
          :: serV (ind ++ [' ', ' ']) v ++ serFields (ind ++ [' ', ' ']) t
          ++ '\n' :: (ind ++ [cbrace]))) ++ rest = _
        simp [qstr, List.append_assoc]
      rw [hshape, parseV_succ, skipWs_not_ws obrace _ (by decide)]
      show (match skipWs (('\n' :: (ind ++ [' ', ' '])) ++ ('"'
          :: (escStr k.data ++ ('"' :: (':' :: ' '
            :: (serV (ind ++ [' ', ' ']) v
              ++ (serFields (ind ++ [' ', ' ']) t
                ++ ('\n' :: (ind ++ (cbrace :: rest)))))))))) with
        | [] => none
        | c2 :: r2 =>
          if c2 = cbrace then some (Json.obj JsonFields.nil, r2)
          else Option.map (fun p => (Json.obj p.1, p.2))
            (parseFields f (c2 :: r2)))
        = some (Json.obj (JsonFields.cons k v t), rest)
      rw [skipWs_ws_append _ _ (cons_ws '\n' (by decide) _ hit2),
        skipWs_not_ws '"' _ (by decide)]
      simp only [if_neg (by decide : ¬ (('"' : Char) = cbrace))]
      have hq : ('"' :: (escStr k.data ++ ('"' :: (':' :: ' '
          :: (serV (ind ++ [' ', ' ']) v
            ++ (serFields (ind ++ [' ', ' ']) t
              ++ ('\n' :: (ind ++ (cbrace :: rest)))))))))
          = qstr k ++ (':' :: ' ' :: (serV (ind ++ [' ', ' ']) v
              ++ (serFields (ind ++ [' ', ' ']) t
                ++ ('\n' :: (ind ++ (cbrace :: rest)))))) := by
        simp [qstr, List.append_assoc]
      rw [hq, hsub]
      rfl

/-- The reader's item loop undoes one serialized item run. -/
theorem parseItems_serV (fuel : Nat) (indItem indClose : List Char)
    (h : Json) (t : JsonItems) (rest : List Char)
    (hf : jsize h + isize t + 1 ≤ fuel)
    (hit : ∀ c ∈ indItem, isWsChar c = true)
    (hcl : ∀ c ∈ indClose, isWsChar c = true) :
    parseItems fuel (serV indItem h ++ (serItems indItem t
        ++ ('\n' :: (indClose ++ (']' :: rest)))))
      = some (JsonItems.cons h t, rest) := by
  obtain ⟨f, rfl⟩ : ∃ f, fuel = f + 1 := by
    cases fuel
    · exact absurd hf (by have := jsize_pos h; have := isize_pos t; omega)
    · exact ⟨_, rfl⟩
  have hval : parseV f (serV indItem h ++ (serItems indItem t
      ++ ('\n' :: (indClose ++ (']' :: rest)))))
      = some (h, serItems indItem t
          ++ ('\n' :: (indClose ++ (']' :: rest)))) := by
    apply parseV_serV f indItem h _ (by have := isize_pos t; omega) hit
    cases t with
    | nil => exact (by decide : ('\n' : Char).isDigit = false)
    | cons h' t' => exact (by decide : (',' : Char).isDigit = false)
  simp only [parseItems, hval]
  cases t with
  | nil =>
    have hskip : skipWs (serItems indItem JsonItems.nil
        ++ ('\n' :: (indClose ++ (']' :: rest)))) = ']' :: rest := by
      rw [serItems, List.nil_append,
        show ('\n' :: (indClose ++ (']' :: rest)))
          = ('\n' :: indClose) ++ (']' :: rest) from rfl,
        skipWs_ws_append _ _ (cons_ws '\n' (by decide) _ hcl),
        skipWs_not_ws ']' _ (by decide)]
    rw [hskip]
    rfl
  | cons h' t' =>
    have hre : serItems indItem (JsonItems.cons h' t')
        ++ ('\n' :: (indClose ++ (']' :: rest)))
        = ',' :: (('\n' :: indItem) ++ (serV indItem h'
            ++ (serItems indItem t'
              ++ ('\n' :: (indClose ++ (']' :: rest)))))) := by
      show (',' :: '\n' :: (indItem ++ serV indItem h' ++ serItems indItem t'))
          ++ ('\n' :: (indClose ++ (']' :: rest))) = _
      simp [List.append_assoc]
    rw [hre, skipWs_not_ws ',' _ (by decide)]
    show Option.map (fun p => (JsonItems.cons h p.1, p.2))
        (parseItems f (('\n' :: indItem) ++ (serV indItem h'
          ++ (serItems indItem t' ++ ('\n' :: (indClose ++ (']' :: rest)))))))
      = some (JsonItems.cons h (JsonItems.cons h' t'), rest)
    rw [parseItems_ws f _ _ (cons_ws '\n' (by decide) _ hit),
      parseItems_serV f indItem indClose h' t' rest
        (by simp only [isize] at hf ⊢; omega) hit hcl]
    rfl

/-- The reader's member loop undoes one serialized member run. -/
theorem parseFields_serV (fuel : Nat) (indItem indClose : List Char)
    (k : String) (v : Json) (t : JsonFields) (rest : List Char)
    (hf : jsize v + fsize t + 1 ≤ fuel)
    (hit : ∀ c ∈ indItem, isWsChar c = true)
    (hcl : ∀ c ∈ indClose, isWsChar c = true) :
    parseFields fuel (qstr k ++ (':' :: ' ' :: (serV indItem v
        ++ (serFields indItem t
          ++ ('\n' :: (indClose ++ (cbrace :: rest)))))))
      = some (JsonFields.cons k v t, rest) := by
  obtain ⟨f, rfl⟩ : ∃ f, fuel = f + 1 := by
    cases fuel
    · exact absurd hf (by have := jsize_pos v; have := fsize_pos t; omega)
    · exact ⟨_, rfl⟩
  have hval : parseV f (serV indItem v ++ (serFields indItem t
      ++ ('\n' :: (indClose ++ (cbrace :: rest)))))
      = some (v, serFields indItem t
          ++ ('\n' :: (indClose ++ (cbrace :: rest)))) := by
    apply parseV_serV f indItem v _ (by have := fsize_pos t; omega) hit
    cases t with
    | nil => exact (by decide : ('\n' : Char).isDigit = false)
    | cons k' v' t' => exact (by decide : (',' : Char).isDigit = false)
  rw [qstr, List.cons_append]
  simp only [parseFields, skipWs_not_ws '"' _ (by decide)]
  rw [List.append_assoc, List.singleton_append, parseStrBody_escStr k.data]
  simp only [skipWs_not_ws ':' _ (by decide),
    parseV_ws_cons f ' ' _ (by decide), hval]
  cases t with
  | nil =>
    have hskip : skipWs (serFields indItem JsonFields.nil
        ++ ('\n' :: (indClose ++ (cbrace :: rest)))) = cbrace :: rest := by
      rw [serFields, List.nil_append,
        show ('\n' :: (indClose ++ (cbrace :: rest)))
          = ('\n' :: indClose) ++ (cbrace :: rest) from rfl,
        skipWs_ws_append _ _ (cons_ws '\n' (by decide) _ hcl),
        skipWs_not_ws cbrace _ (by decide)]
    rw [hskip]
    rfl
  | cons k' v' t' =>
    have hre : serFields indItem (JsonFields.cons k' v' t')
        ++ ('\n' :: (indClose ++ (cbrace :: rest)))
        = ',' :: (('\n' :: indItem) ++ (qstr k' ++ (':' :: ' '
            :: (serV indItem v' ++ (serFields indItem t'
              ++ ('\n' :: (indClose ++ (cbrace :: rest)))))))) := by
      show (',' :: '\n' :: (indItem ++ qstr k' ++ ':' :: ' '
          :: serV indItem v' ++ serFields indItem t'))
          ++ ('\n' :: (indClose ++ (cbrace :: rest))) = _
      simp [List.append_assoc]
    rw [hre, skipWs_not_ws ',' _ (by decide)]
    show Option.map (fun p => (JsonFields.cons (String.mk k.data) v p.1, p.2))
        (parseFields f (('\n' :: indItem) ++ (qstr k' ++ (':' :: ' '
          :: (serV indItem v' ++ (serFields indItem t'
            ++ ('\n' :: (indClose ++ (cbrace :: rest)))))))))
      = some (JsonFields.cons k v (JsonFields.cons k' v' t'), rest)
    rw [parseFields_ws f _ _ (cons_ws '\n' (by decide) _ hit),
      parseFields_serV f indItem indClose k' v' t' rest
        (by simp only [fsize] at hf ⊢; omega) hit hcl]
    rfl

end

mutual

/-- The serialized text is at least as long as the value's size. -/
theorem jsize_le (ind : List Char) (j : Json) : jsize j ≤ (serV ind j).length := by
  cases j with
  | null => simp [jsize, serV]
  | bool b => cases b <;> simp [jsize, serV]
  | num n =>
    have := (natDigits_digits n.natAbs).2
    have hlen : 1 ≤ (natDigits n.natAbs).length :=
      List.length_pos.mpr this
    by_cases hn : n < 0
    · simp only [jsize, serV, intChars, if_pos hn, List.length_cons]
      omega
    · simp only [jsize, serV, intChars, if_neg hn]
      omega
  | str s => simp [jsize, serV, qstr]
  | arr items =>
    cases items with
    | nil => simp [jsize, isize, serV]
    | cons h t =>
      have h1 := jsize_le (ind ++ [' ', ' ']) h
      have h2 := isize_le (ind ++ [' ', ' ']) t
      simp only [jsize, isize, serV, List.length_cons, List.length_append]
      omega
  | obj fields =>
    cases fields with
    | nil => simp [jsize, fsize, serV]
    | cons k v t =>
      have h1 := jsize_le (ind ++ [' ', ' ']) v
      have h2 := fsize_le (ind ++ [' ', ' ']) t
      simp only [jsize, fsize, serV, List.length_cons, List.length_append]
      omega

/-- The serialized items are nearly as long as their size. -/
theorem isize_le (ind : List Char) (t : JsonItems) :
    isize t ≤ (serItems ind t).length + 1 := by
  cases t with
  | nil => simp [isize, serItems]
  | cons h t' =>
    have h1 := jsize_le ind h
    have h2 := isize_le ind t'
    simp only [isize, serItems, List.length_cons, List.length_append]
    omega

/-- The serialized members are nearly as long as their size. -/
theorem fsize_le (ind : List Char) (t : JsonFields) :
    fsize t ≤ (serFields ind t).length + 1 := by
  cases t with
  | nil => simp [fsize, serFields]
  | cons k v t' =>
    have h1 := jsize_le ind v
    have h2 := fsize_le ind t'
    simp only [fsize, serFields, List.length_cons, List.length_append]
    omega

end

/-- `JSON.parse` undoes `JSON.stringify(·, null, 2)` on any document. -/
theorem parseJson_stringifyPretty (j : Json) :
    parseJson (stringifyPretty j) = some j := by
  rw [stringifyPretty, parseJson]
  have hb : jsize j ≤ (serV [] j).length + 1 :=
    le_trans (jsize_le [] j) (by omega)
  have hp := parseV_serV ((serV [] j).length + 1) [] j [] hb nil_ws trivial
  rw [List.append_nil] at hp
  rw [show (String.mk (serV [] j)).data = serV [] j from rfl, hp]
  rfl

/-- Item-wise decoding undoes item-wise encoding. -/
theorem decodeItems_itemsOf {α : Type} (f : Json → Option α) (g : α → Json)
    (l : List α) (h : ∀ a, f (g a) = some a) :
    decodeItems f (itemsOf g l) = some l := by
  induction l with
  | nil => rfl
  | cons a t ih => simp [itemsOf, decodeItems, h, ih]

/-- Decoding a string array undoes `encodeStrList`. -/
theorem asListOf_encodeStrList (l : List String) :
    asListOf asStr (encodeStrList l) = some l := by
  rw [encodeStrList]
  show decodeItems asStr (itemsOf Json.str l) = some l
  exact decodeItems_itemsOf asStr Json.str l fun a => rfl

/-- Decoding a risk level undoes encoding it. -/
theorem decodeRisk_riskStr (r : RiskLevel) :
    decodeRisk (.str (riskStr r)) = some r := by
  cases r <;> rfl

/-- Decoding a change type undoes encoding it. -/
theorem decodeChangeType_changeTypeStr (c : ChangeType) :
    decodeChangeType (.str (changeTypeStr c)) = some c := by
  cases c <;> rfl

/-- Decoding a summary undoes encoding it. -/
theorem decodeSummary_encodeSummary (s : AssessmentSummary) :
    decodeSummary (encodeSummary s) = some s := by
  obtain ⟨aem, aea, aer, dtm, dta, dtr, rl, bc, kf⟩ := s
  cases rl <;>
    simp [decodeSummary, encodeSummary, decodeField, getField, asInt, asBool,
      decodeRisk_riskStr, asListOf_encodeStrList]

/-- Decoding API-change details undoes encoding them. -/
theorem decodeApiDetails_encode (d : ApiChangeDetails) :
    decodeApiDetails (encodeApiDetails d) = some d := by
  obtain ⟨pc, rsc, bc⟩ := d
  cases pc <;> cases rsc <;> cases bc <;>
    simp [encodeApiDetails, decodeApiDetails, optField, decodeOptField,
      getField, asBool, asListOf_encodeStrList]

/-- Decoding an API change undoes encoding it. -/
theorem decodeApiChange_encode (c : ApiChange) :
    decodeApiChange (encodeApiChange c) = some c := by
  obtain ⟨ep, me, ct, su, de⟩ := c
  cases de <;>
    simp [encodeApiChange, decodeApiChange, optField, decodeOptField,
      decodeField, getField, asStr, decodeChangeType_changeTypeStr,
      decodeApiDetails_encode]

/-- Decoding database-change details undoes encoding them. -/
theorem decodeDbDetails_encode (d : DatabaseChangeDetails) :
    decodeDbDetails (encodeDbDetails d) = some d := by
  obtain ⟨ca, cr, cm, ic⟩ := d
  cases ca <;> cases cr <;> cases cm <;> cases ic <;>
    simp [encodeDbDetails, decodeDbDetails, optField, decodeOptField,
      getField, asListOf_encodeStrList]

/-- Decoding a database change undoes encoding it. -/
theorem decodeDbChange_encode (c : DatabaseChange) :
    decodeDbChange (encodeDbChange c) = some c := by
  obtain ⟨tn, ct, su, de⟩ := c
  cases de <;>
    simp [encodeDbChange, decodeDbChange, optField, decodeOptField,
      decodeField, getField, asStr, decodeChangeType_changeTypeStr,
      decodeDbDetails_encode]

/-- Decoding a whole results document undoes encoding it. -/
theorem decodeResultsJson_encodeResults (r : AssessmentResults) :
    decodeResultsJson (encodeResults r) = some r := by
  obtain ⟨id, rid, su, ac, dc, rd, ga⟩ := r
  cases ac <;> cases dc <;>
    simp [encodeResults, decodeResultsJson, decodeField, decodeNullableField,
      getField, asStr, nullable, decodeSummary_encodeSummary,
      decodeItems_itemsOf _ _ _ decodeApiChange_encode,
      decodeItems_itemsOf _ _ _ decodeDbChange_encode, asListOf]

/- ### C7: JSON export round-trip. -/

/-- C7: serializing an `AssessmentResults` row with the JSON export and
parsing the produced string back yields a value field-for-field equal to
the original. -/
theorem json_export_roundtrip (r : AssessmentResults) :
    reparseResults (stringifyResults r) = some r := by
  rw [reparseResults, stringifyResults, parseJson_stringifyPretty]
  show decodeResultsJson (encodeResults r) = some r
  exact decodeResultsJson_encodeResults r

end ReleasePortal
